import Mathlib

/-!
Verification of the window-manager core of the `portfolio-lit` repository.

The development shallowly embeds, in Lean, the pure geometry utilities of
`src/utils/window-manager.js`, the command methods of the `AppState` store
(`src/context/app-state.js`, the file whose name is unknown in this snapshot),
and its persistence adapter (`saveToLocalStorage` / `loadFromLocalStorage`),
and proves or refutes the specification's claims about them.

Machine numbers are modelled as `Int` (JavaScript numbers used as integer
pixel coordinates throughout the source).  `Math.floor` of a division is
modelled with `Int.fdiv` (floor division).  JavaScript objects that carry
window state are modelled as Lean structures; JSON values are modelled by an
explicit `JValue` inductive.
-/

namespace Portfolio

/-- A point `{x, y}` in desktop coordinates. -/
structure Pos where
  x : Int
  y : Int
deriving DecidableEq, Repr

/-- A size `{width, height}`. -/
structure Size where
  width : Int
  height : Int
deriving DecidableEq, Repr

/-- The `{position, size}` view of a window used by the geometry utilities
(`windowData` arguments of `window-manager.js`). -/
structure WindowData where
  position : Pos
  size : Size
deriving DecidableEq, Repr

/-! ## Geometry engine (`src/utils/window-manager.js`) -/

/-- `constrainPosition(position, size, bounds)` from `window-manager.js`:
clamps `position.x` into `[0, max(bounds.width - size.width, 0)]` and
`position.y` into `[0, max(bounds.height - size.height, 0)]`. -/
def constrainPosition (position : Pos) (size : Size) (bounds : Size) : Pos :=
  let minX : Int := 0
  let minY : Int := 0
  let maxX : Int := max (bounds.width - size.width) 0
  let maxY : Int := max (bounds.height - size.height) 0
  { x := max minX (min position.x maxX)
  , y := max minY (min position.y maxY) }

/-- `isOverlapping(windowData1, windowData2)` from `window-manager.js`:
axis-aligned bounding-box test,
`!(r1.right < r2.left || r1.left > r2.right || r1.bottom < r2.top || r1.top > r2.bottom)`. -/
def isOverlapping (windowData1 windowData2 : WindowData) : Bool :=
  let r1left := windowData1.position.x
  let r1right := windowData1.position.x + windowData1.size.width
  let r1top := windowData1.position.y
  let r1bottom := windowData1.position.y + windowData1.size.height
  let r2left := windowData2.position.x
  let r2right := windowData2.position.x + windowData2.size.width
  let r2top := windowData2.position.y
  let r2bottom := windowData2.position.y + windowData2.size.height
  !(decide (r1right < r2left) || decide (r1left > r2right) ||
    decide (r1bottom < r2top) || decide (r1top > r2bottom))

/-- JavaScript `handle.includes(c)` for a single-character needle: true when
the character occurs in the string. -/
def strIncludes (s : String) (c : Char) : Bool := s.data.contains c

/-- `calculateResize(handle, startPos, currentPos, originalWindowData, minSize)`
from `window-manager.js`.  `handle` is the resize-handle string; the source
tests it with `handle.includes('e')` etc., modelled by `strIncludes`. -/
def calculateResize (handle : String) (startPos currentPos : Pos)
    (originalWindowData : WindowData) (minSize : Size) : WindowData :=
  let deltaX := currentPos.x - startPos.x
  let deltaY := currentPos.y - startPos.y
  let hx : Int × Int :=
    if strIncludes handle 'e' then
      (originalWindowData.position.x,
       max minSize.width (originalWindowData.size.width + deltaX))
    else if strIncludes handle 'w' then
      let newWidth := max minSize.width (originalWindowData.size.width - deltaX)
      let widthDiff := originalWindowData.size.width - newWidth
      (originalWindowData.position.x + widthDiff, newWidth)
    else
      (originalWindowData.position.x, originalWindowData.size.width)
  let vy : Int × Int :=
    if strIncludes handle 's' then
      (originalWindowData.position.y,
       max minSize.height (originalWindowData.size.height + deltaY))
    else if strIncludes handle 'n' then
      let newHeight := max minSize.height (originalWindowData.size.height - deltaY)
      let heightDiff := originalWindowData.size.height - newHeight
      (originalWindowData.position.y + heightDiff, newHeight)
    else
      (originalWindowData.position.y, originalWindowData.size.height)
  { position := { x := hx.1, y := vy.1 }
  , size := { width := hx.2, height := vy.2 } }

/-! ## Claims about the geometry engine -/

/-- Claim C7: `constrainPosition` is idempotent — applying it twice with the
same `size` and `bounds` gives the same result as applying it once. -/
theorem constrainPosition_idem (p : Pos) (s : Size) (b : Size) :
    constrainPosition (constrainPosition p s b) s b = constrainPosition p s b := by
  simp only [constrainPosition, Pos.mk.injEq]
  constructor <;> omega

/-- Claim C8: `isOverlapping a b` is exactly
`NOT (a.right < b.left OR a.left > b.right OR a.bottom < b.top OR a.top > b.bottom)`,
and in particular two windows sharing exactly one touching edge
(`a.right == b.left`) are reported as overlapping. -/
theorem isOverlapping_spec :
    (∀ a b : WindowData,
      isOverlapping a b = true ↔
        ¬(a.position.x + a.size.width < b.position.x ∨
          a.position.x > b.position.x + b.size.width ∨
          a.position.y + a.size.height < b.position.y ∨
          a.position.y > b.position.y + b.size.height)) ∧
    isOverlapping ⟨⟨0, 0⟩, ⟨100, 100⟩⟩ ⟨⟨100, 0⟩, ⟨50, 50⟩⟩ = true := by
  constructor
  · intro a b
    simp [isOverlapping]
    omega
  · rfl

/-- Claim C5: for the compass handles containing `'w'` (`"w"`, `"nw"`, `"sw"`),
`calculateResize` returns `width = max(minSize.width, originalWidth - deltaX)`
and `x = originalX + (originalWidth - newWidth)`, so the east edge
`x + width = originalX + originalWidth` is fixed; concretely (with a
`minSize` of `{100, 100}`, small enough that the clamp does not bind — note
the source's default `minSize` is `{300, 200}`), handle `'e'` on a window of
size `{200, 100}` at `{50, 50}` under a `+30`px x-drag yields width `230`
with `x = 50` unchanged, and handle `'w'` yields width `170` with `x = 80`. -/
theorem calculateResize_west_anchor (handle : String) (startPos currentPos : Pos)
    (ow : WindowData) (minSize : Size)
    (hw : handle = "w" ∨ handle = "nw" ∨ handle = "sw") :
    ((calculateResize handle startPos currentPos ow minSize).size.width =
        max minSize.width (ow.size.width - (currentPos.x - startPos.x)) ∧
      (calculateResize handle startPos currentPos ow minSize).position.x =
        ow.position.x + (ow.size.width -
          (calculateResize handle startPos currentPos ow minSize).size.width) ∧
      (calculateResize handle startPos currentPos ow minSize).position.x +
          (calculateResize handle startPos currentPos ow minSize).size.width =
        ow.position.x + ow.size.width) ∧
    calculateResize "e" ⟨0, 0⟩ ⟨30, 0⟩ ⟨⟨50, 50⟩, ⟨200, 100⟩⟩ ⟨100, 100⟩ =
      ⟨⟨50, 50⟩, ⟨230, 100⟩⟩ ∧
    calculateResize "w" ⟨0, 0⟩ ⟨30, 0⟩ ⟨⟨50, 50⟩, ⟨200, 100⟩⟩ ⟨100, 100⟩ =
      ⟨⟨80, 50⟩, ⟨170, 100⟩⟩ := by
  have he : strIncludes handle 'e' = false := by
    rcases hw with h | h | h <;> subst h <;> rfl
  have hw2 : strIncludes handle 'w' = true := by
    rcases hw with h | h | h <;> subst h <;> rfl
  refine ⟨?_, by rfl, by rfl⟩
  refine ⟨?_, ?_, ?_⟩ <;> simp [calculateResize, he, hw2] <;> omega

/-- Witness for C5: instantiates `calculateResize_west_anchor` at handle
`"nw"` with concrete pointers, window and `minSize`. -/
theorem calculateResize_west_anchor_witness :
    ("nw" = "w" ∨ "nw" = "nw" ∨ "nw" = "sw") ∧
    (((calculateResize "nw" ⟨0, 0⟩ ⟨30, 0⟩ ⟨⟨50, 50⟩, ⟨200, 100⟩⟩ ⟨100, 100⟩).size.width =
        max (100 : Int) (200 - (30 - 0)) ∧
      (calculateResize "nw" ⟨0, 0⟩ ⟨30, 0⟩ ⟨⟨50, 50⟩, ⟨200, 100⟩⟩ ⟨100, 100⟩).position.x =
        50 + (200 -
          (calculateResize "nw" ⟨0, 0⟩ ⟨30, 0⟩ ⟨⟨50, 50⟩, ⟨200, 100⟩⟩ ⟨100, 100⟩).size.width) ∧
      (calculateResize "nw" ⟨0, 0⟩ ⟨30, 0⟩ ⟨⟨50, 50⟩, ⟨200, 100⟩⟩ ⟨100, 100⟩).position.x +
          (calculateResize "nw" ⟨0, 0⟩ ⟨30, 0⟩ ⟨⟨50, 50⟩, ⟨200, 100⟩⟩ ⟨100, 100⟩).size.width =
        50 + 200) ∧
    calculateResize "e" ⟨0, 0⟩ ⟨30, 0⟩ ⟨⟨50, 50⟩, ⟨200, 100⟩⟩ ⟨100, 100⟩ =
      ⟨⟨50, 50⟩, ⟨230, 100⟩⟩ ∧
    calculateResize "w" ⟨0, 0⟩ ⟨30, 0⟩ ⟨⟨50, 50⟩, ⟨200, 100⟩⟩ ⟨100, 100⟩ =
      ⟨⟨80, 50⟩, ⟨170, 100⟩⟩) :=
  ⟨Or.inr (Or.inl rfl),
   calculateResize_west_anchor "nw" ⟨0, 0⟩ ⟨30, 0⟩ ⟨⟨50, 50⟩, ⟨200, 100⟩⟩ ⟨100, 100⟩
     (Or.inr (Or.inl rfl))⟩

/-! ## Desktop state store (`AppState` of the app-state context module)

The store's command methods mutate `this.state`; each method is embedded as a
function `DState → ... → DState` computing the committed next state.  The
`data` payload of a window is opaque to the core and is modelled as a
`String`; the source's `_isNewlyOpened` flag is the field `isNewlyOpened`. -/

/-- One window record of `AppState.state.windows`. -/
structure WindowRecord where
  id : String
  title : String
  component : String
  position : Pos
  size : Size
  zIndex : Int
  isMinimized : Bool
  isFocused : Bool
  data : String
  isNewlyOpened : Bool
deriving DecidableEq, Repr

/-- The `config` argument of `openWindow`; `none` models an absent (or falsy)
property, on which the source substitutes a default with `||`. -/
structure WinConfig where
  id : Option String
  title : Option String
  component : Option String
  position : Option Pos
  size : Option Size
  data : Option String
deriving DecidableEq, Repr

/-- The fields of `AppState.state`.  `iconPositions` (a JS `Map`) is an
ordered association list, `selectedIcons` (a JS `Set`) a list of ids. -/
structure DState where
  theme : String
  windows : List WindowRecord
  nextZIndex : Int
  desktopSize : Size
  focusedWindowId : Option String
  iconPositions : List (String × Pos)
  selectedIcons : List String
deriving DecidableEq, Repr

/-- The `initialState` of the app-state module: dark theme, no windows,
`nextZIndex = Z_INDEX.WINDOW_BASE = 100`, no focus.  The desktop size is the
browser viewport, taken here as a parameter. -/
def initialState (desktopSize : Size) : DState :=
  { theme := "dark"
  , windows := []
  , nextZIndex := 100
  , desktopSize := desktopSize
  , focusedWindowId := none
  , iconPositions := []
  , selectedIcons := [] }

/-- `AppState.getDefaultPosition`: cascading placement,
`offset = (windows.length * WINDOW_CASCADE_OFFSET) % WINDOW_CASCADE_MAX`
with `WINDOW_CASCADE_OFFSET = 30`, `WINDOW_CASCADE_MAX = 200`. -/
def getDefaultPosition (s : DState) : Pos :=
  let offset := ((s.windows.length : Int) * 30) % 200
  { x := 100 + offset, y := 100 + offset }

/-- The `defaultWindow` record built inside `AppState.openWindow`.
`generatedId` is the value `generateWindowId()` would produce (the source
generates a fresh random id when `config.id` is absent).  Defaults:
`WINDOW_INITIAL_WIDTH = 600`, `WINDOW_INITIAL_HEIGHT = 400`. -/
def mkOpenedWindow (s : DState) (config : WinConfig) (generatedId : String) :
    WindowRecord :=
  { id := config.id.getD generatedId
  , title := config.title.getD "Untitled"
  , component := config.component.getD "div"
  , position := config.position.getD (getDefaultPosition s)
  , size := config.size.getD { width := 600, height := 400 }
  , zIndex := s.nextZIndex
  , isMinimized := false
  , isFocused := true
  , data := config.data.getD ""
  , isNewlyOpened := true }

/-- `AppState.openWindow`: unfocuses every existing window, appends the new
record, bumps `nextZIndex`, and sets `focusedWindowId` to the new id. -/
def openWindow (s : DState) (config : WinConfig) (generatedId : String) : DState :=
  let newWindow := mkOpenedWindow s config generatedId
  { s with
    windows := s.windows.map (fun w => { w with isFocused := false }) ++ [newWindow]
    nextZIndex := s.nextZIndex + 1
    focusedWindowId := some newWindow.id }

/-- The `windows.reduce((max, w) => w.zIndex > max.zIndex ? w : max, init)`
pattern used by `closeWindow` and `minimizeWindow`: a left fold keeping the
first (leftmost) element of maximal `zIndex`. -/
def reduceMaxZ (acc : WindowRecord) (l : List WindowRecord) : WindowRecord :=
  l.foldl (fun m w => if w.zIndex > m.zIndex then w else m) acc

/-- The in-place mutation `nextWindow.isFocused = true` of the source: the
mutated object is the one the reduce selected, i.e. the first element of the
array equal to it (strict `>` in the reduce keeps the leftmost maximum, and
two structurally equal records have equal `zIndex`). -/
def setFocusedOnFirst (t : WindowRecord) : List WindowRecord → List WindowRecord
  | [] => []
  | w :: rest =>
      if w = t then { w with isFocused := true } :: rest
      else w :: setFocusedOnFirst t rest

/-- The filter predicate `w => w.id !== id` of `closeWindow`. -/
def notId (id : String) (w : WindowRecord) : Bool := w.id ≠ id

/-- `AppState.closeWindow`: removes the record with the given id; if it was
the focused one and windows remain, the remaining record with the highest
`zIndex` (first in array order on ties) gets `isFocused = true` and becomes
`focusedWindowId`; if none remain, `focusedWindowId` becomes `null`. -/
def closeWindow (s : DState) (id : String) : DState :=
  match s.windows.filter (notId id) with
  | [] => { s with windows := [], focusedWindowId := none }
  | w :: rest =>
      if s.focusedWindowId = some id then
        let nextWindow := reduceMaxZ w (w :: rest)
        { s with
          windows := setFocusedOnFirst nextWindow (w :: rest)
          focusedWindowId := some nextWindow.id }
      else
        { s with windows := w :: rest }

/-- `AppState.focusWindow`: the target gets focus, the current `nextZIndex`
and is un-minimized; every other window is unfocused; `nextZIndex` is
incremented and `focusedWindowId` set — unconditionally, whether or not any
window matches `id`. -/
def focusWindow (s : DState) (id : String) : DState :=
  let windows := s.windows.map (fun w =>
    if w.id = id then
      { w with isFocused := true, zIndex := s.nextZIndex, isMinimized := false }
    else
      { w with isFocused := false })
  { s with
    windows := windows
    nextZIndex := s.nextZIndex + 1
    focusedWindowId := some id }

/-- `AppState.minimizeWindow`: minimizes and unfocuses the target (via
`_updateWindow`), then focuses the highest-`zIndex` window among the
non-minimized ones, or clears focus to `null` when none are visible. -/
def minimizeWindow (s : DState) (id : String) : DState :=
  let windows := s.windows.map (fun w =>
    if w.id = id then { w with isMinimized := true, isFocused := false } else w)
  match windows.filter (fun w => !w.isMinimized) with
  | [] => { s with windows := windows, focusedWindowId := none }
  | v :: vrest =>
      let nextWindow := reduceMaxZ v (v :: vrest)
      { s with
        windows := setFocusedOnFirst nextWindow windows
        focusedWindowId := some nextWindow.id }

/-- `AppState.restoreWindow` simply delegates to `focusWindow`. -/
def restoreWindow (s : DState) (id : String) : DState :=
  focusWindow s id

/-- `AppState.maximizeWindow`: position `{0,0}`, size `desktopSize` minus an
80px chrome band in height (via `_updateWindowWith`). -/
def maximizeWindow (s : DState) (id : String) : DState :=
  { s with windows := s.windows.map (fun w =>
      if w.id = id then
        { w with
          position := { x := 0, y := 0 }
          size := { width := s.desktopSize.width, height := s.desktopSize.height - 80 } }
      else w) }

/-- `AppState.centerWindow`.  `Math.floor` of the halvings is `Int.fdiv`;
`Math.floor((h - 80) * 0.7)` is modelled as exact arithmetic
`((h - 80) * 7).fdiv 10` (the geometry fields are opaque to every claim
below, so float rounding of the product is immaterial). -/
def centerWindow (s : DState) (id : String) : DState :=
  let halfWidth := s.desktopSize.width.fdiv 2
  let centerHeight := ((s.desktopSize.height - 80) * 7).fdiv 10
  let x := (s.desktopSize.width - halfWidth).fdiv 2
  let y : Int := 80
  { s with windows := s.windows.map (fun w =>
      if w.id = id then
        { w with position := { x := x, y := y }
                 size := { width := halfWidth, height := centerHeight } }
      else w) }

/-- `AppState.updateWindowPosition`: direct field replacement. -/
def updateWindowPosition (s : DState) (id : String) (position : Pos) : DState :=
  { s with windows := s.windows.map (fun w =>
      if w.id = id then { w with position := position } else w) }

/-- `AppState.updateWindowSize`: direct field replacement. -/
def updateWindowSize (s : DState) (id : String) (size : Size) : DState :=
  { s with windows := s.windows.map (fun w =>
      if w.id = id then { w with size := size } else w) }

/-- One store command, as issued by the rendering layer. -/
inductive Cmd where
  | openW (config : WinConfig) (generatedId : String)
  | closeW (id : String)
  | focusW (id : String)
  | minimizeW (id : String)
  | restoreW (id : String)
  | maximizeW (id : String)
  | centerW (id : String)
  | movePos (id : String) (position : Pos)
  | resizeW (id : String) (size : Size)
deriving DecidableEq, Repr

/-- Applying one command to the state. -/
def step (s : DState) : Cmd → DState
  | .openW config generatedId => openWindow s config generatedId
  | .closeW id => closeWindow s id
  | .focusW id => focusWindow s id
  | .minimizeW id => minimizeWindow s id
  | .restoreW id => restoreWindow s id
  | .maximizeW id => maximizeWindow s id
  | .centerW id => centerWindow s id
  | .movePos id position => updateWindowPosition s id position
  | .resizeW id size => updateWindowSize s id size

/-- Running a command sequence from a state. -/
def run (s : DState) (cs : List Cmd) : DState :=
  cs.foldl step s

/-- States reachable from the initial empty state by store commands.  The
`openW` constructor requires the effective id (`config.id` or the generated
one) to be fresh: `generateWindowId()` returns globally unique random ids and
no caller in the repository passes `config.id`, so a colliding open never
occurs in the modelled system. -/
inductive Reachable : DState → Prop where
  | init (desktopSize : Size) : Reachable (initialState desktopSize)
  | openW {s : DState} (config : WinConfig) (generatedId : String)
      (hfresh : config.id.getD generatedId ∉ s.windows.map WindowRecord.id) :
      Reachable s → Reachable (openWindow s config generatedId)
  | closeW {s : DState} (id : String) : Reachable s → Reachable (closeWindow s id)
  | focusW {s : DState} (id : String) : Reachable s → Reachable (focusWindow s id)
  | minimizeW {s : DState} (id : String) : Reachable s → Reachable (minimizeWindow s id)
  | restoreW {s : DState} (id : String) : Reachable s → Reachable (restoreWindow s id)
  | maximizeW {s : DState} (id : String) : Reachable s → Reachable (maximizeWindow s id)
  | centerW {s : DState} (id : String) : Reachable s → Reachable (centerWindow s id)
  | movePos {s : DState} (id : String) (position : Pos) :
      Reachable s → Reachable (updateWindowPosition s id position)
  | resizeW {s : DState} (id : String) (size : Size) :
      Reachable s → Reachable (updateWindowSize s id size)

/-- An `openWindow` config with every property absent. -/
def emptyConfig : WinConfig :=
  { id := none, title := none, component := none
  , position := none, size := none, data := none }

/-- A sample one-window state used by concrete witnesses. -/
def sampleWindow : WindowRecord :=
  { id := "a", title := "A", component := "div"
  , position := { x := 0, y := 0 }, size := { width := 600, height := 400 }
  , zIndex := 100, isMinimized := false, isFocused := true
  , data := "", isNewlyOpened := true }

/-- A sample state holding `sampleWindow`, focused. -/
def sampleState : DState :=
  { theme := "dark"
  , windows := [sampleWindow]
  , nextZIndex := 101
  , desktopSize := { width := 1920, height := 1080 }
  , focusedWindowId := some "a"
  , iconPositions := []
  , selectedIcons := [] }

/-- A two-window state matching the spec's close-handoff example:
A(`zIndex = 5`, focused), B(`zIndex = 7`, unfocused). -/
def sampleTwoState : DState :=
  { sampleState with
    windows :=
      [ { sampleWindow with id := "a", zIndex := 5, isFocused := true }
      , { sampleWindow with id := "b", zIndex := 7, isFocused := false } ]
    nextZIndex := 8
    focusedWindowId := some "a" }

/-! ## Focus / frame-effect claims about the store commands -/

/-- The command sequence exhibiting the C1 violation: open three windows,
re-focus the first (giving it the top `zIndex`), minimize it, close the
focused third window — `closeWindow` then hands focus to the highest-`zIndex`
remaining window, which is the *minimized* first one — and finally minimize
the second. -/
def c1Trace : List Cmd :=
  [ .openW emptyConfig "a", .openW emptyConfig "b", .openW emptyConfig "c"
  , .focusW "a", .minimizeW "a", .closeW "c", .minimizeW "b" ]

/-- Claim C1 (code bug): in the state reached by `c1Trace` every window is
minimized, yet one window still has `isFocused = true` — the focus-uniqueness
invariant "if all windows are minimized, no window has `isFocused = true`"
fails.  The slip is in `closeWindow`, which (unlike `minimizeWindow`) selects
the focus successor among *all* remaining windows instead of the
non-minimized ones, so the minimized window `"a"` receives focus when `"c"`
is closed and keeps it when `"b"` is minimized afterwards. -/
theorem closeWindow_focuses_minimized_window :
    (∀ w ∈ (run (initialState ⟨1920, 1080⟩) c1Trace).windows, w.isMinimized = true) ∧
    (∃ w ∈ (run (initialState ⟨1920, 1080⟩) c1Trace).windows, w.isFocused = true) := by
  decide

/-- Claim C3 counterexample: `focusWindow` with an id matching no window is
not a no-op — on `sampleState` (one focused window `"a"`) it changes the
state (it unfocuses `"a"`, increments `nextZIndex` from 101 to 102, and sets
`focusedWindowId` to the dangling id `"ghost"`). -/
theorem focusWindow_missing_id_not_noop :
    focusWindow sampleState "ghost" ≠ sampleState := by
  decide

/-- Claim C3 (amended): for an id matching no window, `focusWindow` leaves
every window's `zIndex`, geometry and `isMinimized` unchanged, but it still
sets `isFocused := false` on every window, increments `nextZIndex` by 1, and
sets `focusedWindowId` to the given (non-existent) id. -/
theorem focusWindow_missing_id_effect (s : DState) (id : String)
    (hmiss : ∀ w ∈ s.windows, w.id ≠ id) :
    focusWindow s id =
      { s with
        windows := s.windows.map (fun w => { w with isFocused := false })
        nextZIndex := s.nextZIndex + 1
        focusedWindowId := some id } := by
  have hwin : s.windows.map (fun w =>
      if w.id = id then
        { w with isFocused := true, zIndex := s.nextZIndex, isMinimized := false }
      else
        { w with isFocused := false }) =
      s.windows.map (fun w => { w with isFocused := false }) :=
    List.map_congr_left (fun w hw => by rw [if_neg (hmiss w hw)])
  simp only [focusWindow, hwin]

/-- Witness for the amended C3: instantiates `focusWindow_missing_id_effect`
on `sampleState` and the absent id `"ghost"`. -/
theorem focusWindow_missing_id_effect_witness :
    (∀ w ∈ sampleState.windows, w.id ≠ "ghost") ∧
    focusWindow sampleState "ghost" =
      { sampleState with
        windows := sampleState.windows.map (fun w => { w with isFocused := false })
        nextZIndex := sampleState.nextZIndex + 1
        focusedWindowId := some "ghost" } :=
  ⟨by decide, focusWindow_missing_id_effect sampleState "ghost" (by decide)⟩

/-- Claim C10: `openWindow` maps every pre-existing window to the same record
with only `isFocused` forced to `false`, preserves their relative order, and
appends the new window at the end; positionally, every pre-existing window
keeps its `id`, `title`, `component`, `position`, `size`, `zIndex`,
`isMinimized`, `data` and `isNewlyOpened` fields. -/
theorem openWindow_frame (s : DState) (config : WinConfig) (generatedId : String) :
    (openWindow s config generatedId).windows =
      s.windows.map (fun w => { w with isFocused := false }) ++
        [mkOpenedWindow s config generatedId] ∧
    ∀ i, i < s.windows.length →
      ∃ w w', s.windows[i]? = some w ∧
        (openWindow s config generatedId).windows[i]? = some w' ∧
        w'.id = w.id ∧ w'.title = w.title ∧ w'.component = w.component ∧
        w'.position = w.position ∧ w'.size = w.size ∧ w'.zIndex = w.zIndex ∧
        w'.isMinimized = w.isMinimized ∧ w'.data = w.data ∧
        w'.isNewlyOpened = w.isNewlyOpened ∧ w'.isFocused = false := by
  refine ⟨rfl, ?_⟩
  intro i hi
  refine ⟨s.windows[i], { s.windows[i] with isFocused := false },
    List.getElem?_eq_getElem hi, ?_, rfl, rfl, rfl, rfl, rfl, rfl, rfl, rfl, rfl, rfl⟩
  simp only [openWindow]
  rw [List.getElem?_append_left (by simpa using hi), List.getElem?_map,
    List.getElem?_eq_getElem hi]
  rfl

/-- Witness for C10: instantiates `openWindow_frame` on `sampleState`, a
fresh generated id and index `0`. -/
theorem openWindow_frame_witness :
    (0 < sampleState.windows.length) ∧
    ∃ w w', sampleState.windows[0]? = some w ∧
      (openWindow sampleState emptyConfig "b").windows[0]? = some w' ∧
      w'.id = w.id ∧ w'.title = w.title ∧ w'.component = w.component ∧
      w'.position = w.position ∧ w'.size = w.size ∧ w'.zIndex = w.zIndex ∧
      w'.isMinimized = w.isMinimized ∧ w'.data = w.data ∧
      w'.isNewlyOpened = w.isNewlyOpened ∧ w'.isFocused = false :=
  ⟨by decide, (openWindow_frame sampleState emptyConfig "b").2 0 (by decide)⟩

/-! ## Helper lemmas about the reduce / mutate pattern -/

/-- The fold of `reduceMaxZ` returns either its initial accumulator (when no
element strictly exceeds it) or the leftmost element of maximal `zIndex`
strictly above the accumulator; elements to its left are strictly below it,
elements to its right at most it. -/
theorem reduceMaxZ_spec (l : List WindowRecord) (acc : WindowRecord) :
    (reduceMaxZ acc l = acc ∧ ∀ a ∈ l, a.zIndex ≤ acc.zIndex) ∨
    (∃ l₁ l₂, l = l₁ ++ reduceMaxZ acc l :: l₂ ∧
      acc.zIndex < (reduceMaxZ acc l).zIndex ∧
      (∀ a ∈ l₁, a.zIndex < (reduceMaxZ acc l).zIndex) ∧
      (∀ a ∈ l₂, a.zIndex ≤ (reduceMaxZ acc l).zIndex)) := by
  induction l generalizing acc with
  | nil => exact Or.inl ⟨rfl, by simp⟩
  | cons w rest ih =>
    by_cases hwacc : w.zIndex > acc.zIndex
    · have hred : reduceMaxZ acc (w :: rest) = reduceMaxZ w rest := by
        simp [reduceMaxZ, hwacc]
      rcases ih w with ⟨heq, hle⟩ | ⟨l₁, l₂, hsplit, hlt, hl₁, hl₂⟩
      · refine Or.inr ⟨[], rest, ?_, ?_, by simp, ?_⟩
        · rw [hred, heq]; rfl
        · rw [hred, heq]; exact hwacc
        · rw [hred, heq]; exact hle
      · refine Or.inr ⟨w :: l₁, l₂, ?_, ?_, ?_, ?_⟩
        · rw [hred]; simpa using congrArg (w :: ·) hsplit
        · rw [hred]; exact hwacc.trans hlt
        · rw [hred]
          intro a ha
          rcases List.mem_cons.mp ha with rfl | ha
          · exact hlt
          · exact hl₁ a ha
        · rw [hred]; exact hl₂
    · have hred : reduceMaxZ acc (w :: rest) = reduceMaxZ acc rest := by
        simp [reduceMaxZ, hwacc]
      have hwle : w.zIndex ≤ acc.zIndex := not_lt.mp hwacc
      rcases ih acc with ⟨heq, hle⟩ | ⟨l₁, l₂, hsplit, hlt, hl₁, hl₂⟩
      · refine Or.inl ⟨hred.trans heq, ?_⟩
        intro a ha
        rcases List.mem_cons.mp ha with rfl | ha
        · exact hwle
        · exact hle a ha
      · refine Or.inr ⟨w :: l₁, l₂, ?_, ?_, ?_, ?_⟩
        · rw [hred]; simpa using congrArg (w :: ·) hsplit
        · rw [hred]; exact hlt
        · rw [hred]
          intro a ha
          rcases List.mem_cons.mp ha with rfl | ha
          · exact hwle.trans_lt hlt
          · exact hl₁ a ha
        · rw [hred]; exact hl₂

/-- Specialisation to the source pattern `reduce(f, windows[0])` over the
whole array: the result is the leftmost element of maximal `zIndex`. -/
theorem reduceMaxZ_head_spec (w : WindowRecord) (rest : List WindowRecord) :
    ∃ l₁ l₂, w :: rest = l₁ ++ reduceMaxZ w (w :: rest) :: l₂ ∧
      (∀ a ∈ w :: rest, a.zIndex ≤ (reduceMaxZ w (w :: rest)).zIndex) ∧
      (∀ a ∈ l₁, a.zIndex < (reduceMaxZ w (w :: rest)).zIndex) := by
  have hred : reduceMaxZ w (w :: rest) = reduceMaxZ w rest := by
    simp [reduceMaxZ]
  rcases reduceMaxZ_spec rest w with ⟨heq, hle⟩ | ⟨l₁, l₂, hsplit, hlt, hl₁, hl₂⟩
  · refine ⟨[], rest, by rw [hred, heq]; rfl, ?_, by simp⟩
    rw [hred, heq]
    intro a ha
    rcases List.mem_cons.mp ha with rfl | ha
    · exact le_refl _
    · exact hle a ha
  · refine ⟨w :: l₁, l₂, ?_, ?_, ?_⟩
    · rw [hred]; simpa using congrArg (w :: ·) hsplit
    · rw [hred]
      intro a ha
      rcases List.mem_cons.mp ha with rfl | ha
      · exact hlt.le
      · rw [hsplit] at ha
        rcases List.mem_append.mp ha with ha | ha
        · exact (hl₁ a ha).le
        · rcases List.mem_cons.mp ha with rfl | ha
          · exact le_refl _
          · exact hl₂ a ha
    · rw [hred]
      intro a ha
      rcases List.mem_cons.mp ha with rfl | ha
      · exact hlt
      · exact hl₁ a ha

/-- `setFocusedOnFirst` on a list decomposed around the first occurrence of
the target (no earlier element equals it) flips exactly that occurrence. -/
theorem setFocusedOnFirst_of_decomp (t : WindowRecord) (l₁ l₂ : List WindowRecord)
    (h : ∀ a ∈ l₁, a ≠ t) :
    setFocusedOnFirst t (l₁ ++ t :: l₂) = l₁ ++ { t with isFocused := true } :: l₂ := by
  induction l₁ with
  | nil => simp [setFocusedOnFirst]
  | cons a l ih =>
    have hat : a ≠ t := h a (List.mem_cons_self a l)
    show setFocusedOnFirst t (a :: (l ++ t :: l₂)) =
      a :: (l ++ { t with isFocused := true } :: l₂)
    simp only [setFocusedOnFirst]
    rw [if_neg hat, ih (fun b hb => h b (List.mem_cons_of_mem a hb))]

/-- `setFocusedOnFirst` only flips an `isFocused` flag: any projection that
ignores that flag is preserved elementwise. -/
theorem setFocusedOnFirst_map {α : Type} (t : WindowRecord) (l : List WindowRecord)
    (g : WindowRecord → α) (hg : g { t with isFocused := true } = g t) :
    (setFocusedOnFirst t l).map g = l.map g := by
  induction l with
  | nil => rfl
  | cons w rest ih =>
    by_cases hw : w = t
    · subst hw
      simp [setFocusedOnFirst, hg]
    · simp [setFocusedOnFirst, hw, ih]

/-! ## Claim C9: closeWindow focus handoff -/

/-- Claim C9: `closeWindow id` removes exactly the window with that id
(preserving the others' ids and order); if the removed window was the focused
one and windows remain, the remaining window with the numerically highest
`zIndex` — ties broken by remaining list order, i.e. every window strictly
before it has a strictly smaller `zIndex` — gets `isFocused = true` and
becomes `focusedWindowId`; if no windows remain, `focusedWindowId` becomes
`null`. -/
theorem closeWindow_spec (s : DState) (id : String) :
    ((closeWindow s id).windows.map WindowRecord.id =
      (s.windows.filter (notId id)).map WindowRecord.id) ∧
    (∀ w ∈ (closeWindow s id).windows, w.id ≠ id) ∧
    (s.focusedWindowId = some id →
      s.windows.filter (notId id) ≠ [] →
      ∃ l₁ t l₂,
        s.windows.filter (notId id) = l₁ ++ t :: l₂ ∧
        (closeWindow s id).windows = l₁ ++ { t with isFocused := true } :: l₂ ∧
        (∀ w ∈ s.windows.filter (notId id), w.zIndex ≤ t.zIndex) ∧
        (∀ w ∈ l₁, w.zIndex < t.zIndex) ∧
        (closeWindow s id).focusedWindowId = some t.id) ∧
    (s.windows.filter (notId id) = [] →
      (closeWindow s id).focusedWindowId = none) := by
  have hfilter : ∀ w ∈ s.windows.filter (notId id), w.id ≠ id := by
    intro w hw
    simpa [notId] using (List.mem_filter.mp hw).2
  cases hws : s.windows.filter (notId id) with
  | nil =>
    refine ⟨?_, ?_, ?_, ?_⟩
    · simp [closeWindow, hws]
    · intro w hw
      simp [closeWindow, hws] at hw
    · intro _ hne
      exact absurd rfl hne
    · intro _
      simp [closeWindow, hws]
  | cons w rest =>
    have hfilter2 : ∀ x ∈ w :: rest, x.id ≠ id := by
      rw [← hws]
      exact hfilter
    by_cases hfid : s.focusedWindowId = some id
    · have hclose : closeWindow s id =
          { s with
            windows := setFocusedOnFirst (reduceMaxZ w (w :: rest)) (w :: rest)
            focusedWindowId := some (reduceMaxZ w (w :: rest)).id } := by
        simp [closeWindow, hws, hfid]
      obtain ⟨l₁, l₂, hsplit, hle, hlt⟩ := reduceMaxZ_head_spec w rest
      have hne : ∀ a ∈ l₁, a ≠ reduceMaxZ w (w :: rest) := by
        intro a ha heq
        exact absurd (congrArg WindowRecord.zIndex heq) (ne_of_lt (hlt a ha))
      have hset : setFocusedOnFirst (reduceMaxZ w (w :: rest)) (w :: rest) =
          l₁ ++ { reduceMaxZ w (w :: rest) with isFocused := true } :: l₂ := by
        set t := reduceMaxZ w (w :: rest) with ht
        rw [hsplit]
        exact setFocusedOnFirst_of_decomp t l₁ l₂ hne
      have hids : (closeWindow s id).windows.map WindowRecord.id =
          (w :: rest).map WindowRecord.id := by
        rw [hclose]
        exact setFocusedOnFirst_map _ _ WindowRecord.id rfl
      refine ⟨by rw [hids], ?_, ?_, ?_⟩
      · intro x hx
        have hxid : x.id ∈ (w :: rest).map WindowRecord.id := by
          rw [← hids]
          exact List.mem_map_of_mem WindowRecord.id hx
        obtain ⟨u, hu, hui⟩ := List.mem_map.mp hxid
        rw [← hui]
        exact hfilter2 u hu
      · intro _ _
        exact ⟨l₁, reduceMaxZ w (w :: rest), l₂, hsplit,
          by rw [hclose]; exact hset, hle, hlt, by rw [hclose]⟩
      · intro hnil
        exact absurd hnil (List.cons_ne_nil w rest)
    · have hclose : closeWindow s id = { s with windows := w :: rest } := by
        simp [closeWindow, hws, hfid]
      refine ⟨by rw [hclose], ?_, ?_, ?_⟩
      · intro x hx
        rw [hclose] at hx
        exact hfilter2 x hx
      · intro hfid2
        exact absurd hfid2 hfid
      · intro hnil
        exact absurd hnil (List.cons_ne_nil w rest)

/-- Witness for C9, matching the spec's example: windows A(`zIndex = 5`,
focused) and B(`zIndex = 7`, unfocused); closing A hands focus to B, the
highest-`zIndex` remainder. -/
theorem closeWindow_spec_witness :
    (sampleTwoState.focusedWindowId = some "a") ∧
    (sampleTwoState.windows.filter (notId "a") ≠ []) ∧
    ∃ l₁ t l₂,
      sampleTwoState.windows.filter (notId "a") = l₁ ++ t :: l₂ ∧
      (closeWindow sampleTwoState "a").windows = l₁ ++ { t with isFocused := true } :: l₂ ∧
      (∀ w ∈ sampleTwoState.windows.filter (notId "a"), w.zIndex ≤ t.zIndex) ∧
      (∀ w ∈ l₁, w.zIndex < t.zIndex) ∧
      (closeWindow sampleTwoState "a").focusedWindowId = some t.id :=
  ⟨rfl, by decide,
    (closeWindow_spec sampleTwoState "a").2.2.1 rfl (by decide)⟩

/-! ## Claim C2: z-order monotonicity and uniqueness

The inductive invariant `KeysOK` states that the `(zIndex, id)` keys of the
window list are pairwise distinct in both components and that every `zIndex`
is strictly below the `nextZIndex` counter.  Every store command preserves
it; `openWindow` requires the freshness of the generated id recorded in
`Reachable.openW`. -/

/-- The `(zIndex, id)` key of a window. -/
def winKey (w : WindowRecord) : Int × String := (w.zIndex, w.id)

/-- Invariant: pairwise-distinct `zIndex` and `id`, all below the counter. -/
@[reducible]
def KeysOK (l : List WindowRecord) (nz : Int) : Prop :=
  (l.map winKey).Pairwise (fun a b => a.1 ≠ b.1 ∧ a.2 ≠ b.2) ∧
  ∀ k ∈ l.map winKey, k.1 < nz

theorem keysOK_of_keys_eq {l₁ l₂ : List WindowRecord} {nz : Int}
    (h : l₁.map winKey = l₂.map winKey) (hk : KeysOK l₂ nz) : KeysOK l₁ nz := by
  rw [KeysOK, h]
  exact hk

theorem keysOK_sublist {l₁ l₂ : List WindowRecord} {nz : Int}
    (h : l₁.Sublist l₂) (hk : KeysOK l₂ nz) : KeysOK l₁ nz :=
  ⟨hk.1.sublist (h.map winKey), fun k hkm => hk.2 k ((h.map winKey).subset hkm)⟩

theorem keysOK_map_keep {l : List WindowRecord} {nz : Int}
    (f : WindowRecord → WindowRecord) (hf : ∀ w, winKey (f w) = winKey w)
    (hk : KeysOK l nz) : KeysOK (l.map f) nz :=
  keysOK_of_keys_eq
    (by rw [List.map_map]; exact List.map_congr_left fun w _ => hf w) hk

/-- `openWindow` preserves the key invariant when the effective id is fresh. -/
theorem keysOK_openWindow (s : DState) (config : WinConfig) (generatedId : String)
    (hfresh : config.id.getD generatedId ∉ s.windows.map WindowRecord.id)
    (hk : KeysOK s.windows s.nextZIndex) :
    KeysOK (openWindow s config generatedId).windows (s.nextZIndex + 1) := by
  obtain ⟨hp, hb⟩ := hk
  have hkeys : (openWindow s config generatedId).windows.map winKey =
      s.windows.map winKey ++ [(s.nextZIndex, config.id.getD generatedId)] := by
    show (s.windows.map (fun (w : WindowRecord) => { w with isFocused := false }) ++
        [mkOpenedWindow s config generatedId]).map winKey = _
    rw [List.map_append, List.map_map]
    rfl
  constructor
  · rw [hkeys, List.pairwise_append]
    refine ⟨hp, List.pairwise_singleton _ _, ?_⟩
    intro a ha b hbs
    rw [List.mem_singleton] at hbs
    subst hbs
    refine ⟨ne_of_lt (hb a ha), ?_⟩
    intro hcontra
    apply hfresh
    obtain ⟨u, hu, hku⟩ := List.mem_map.mp ha
    have hui : u.id = config.id.getD generatedId := by
      have h2 : (winKey u).2 = ((s.nextZIndex, config.id.getD generatedId) : Int × String).2 := by
        rw [hku]
        exact hcontra
      exact h2
    rw [← hui]
    exact List.mem_map_of_mem WindowRecord.id hu
  · rw [hkeys]
    intro k hkm
    rcases List.mem_append.mp hkm with hkm | hkm
    · exact lt_trans (hb k hkm) (lt_add_one _)
    · rw [List.mem_singleton] at hkm
      subst hkm
      exact lt_add_one _

/-- `focusWindow` preserves the key invariant: the (at most one, by id
uniqueness) matching window receives the fresh counter value, strictly above
every other `zIndex`. -/
theorem keysOK_focusWindow (s : DState) (id : String)
    (hk : KeysOK s.windows s.nextZIndex) :
    KeysOK (focusWindow s id).windows (s.nextZIndex + 1) := by
  obtain ⟨hp, hb⟩ := hk
  have hbound : ∀ w ∈ s.windows, w.zIndex < s.nextZIndex := fun w hw =>
    hb (winKey w) (List.mem_map_of_mem winKey hw)
  constructor
  · show ((s.windows.map fun w =>
        if w.id = id then
          { w with isFocused := true, zIndex := s.nextZIndex, isMinimized := false }
        else { w with isFocused := false }).map winKey).Pairwise _
    rw [List.map_map]
    refine List.pairwise_map.mpr
      (List.Pairwise.imp_of_mem ?_ (List.pairwise_map.mp hp))
    intro a b ha hbmem hab
    obtain ⟨hz, hid⟩ := hab
    by_cases haid : a.id = id
    · have hbid : ¬b.id = id := fun hbid => hid (haid.trans hbid.symm)
      refine ⟨?_, ?_⟩ <;> simp only [Function.comp_apply, if_pos haid, if_neg hbid, winKey]
      · exact ne_of_gt (hbound b hbmem)
      · exact hid
    · by_cases hbid : b.id = id
      · refine ⟨?_, ?_⟩ <;> simp only [Function.comp_apply, if_neg haid, if_pos hbid, winKey]
        · exact ne_of_lt (hbound a ha)
        · exact hid
      · refine ⟨?_, ?_⟩ <;> simp only [Function.comp_apply, if_neg haid, if_neg hbid, winKey]
        · exact hz
        · exact hid
  · show ∀ k ∈ (s.windows.map fun w =>
        if w.id = id then
          { w with isFocused := true, zIndex := s.nextZIndex, isMinimized := false }
        else { w with isFocused := false }).map winKey, k.1 < s.nextZIndex + 1
    rw [List.map_map]
    intro k hkm
    obtain ⟨u, hu, hku⟩ := List.mem_map.mp hkm
    rw [← hku]
    by_cases huid : u.id = id
    · simp only [Function.comp_apply, if_pos huid, winKey]
      exact lt_add_one _
    · simp only [Function.comp_apply, if_neg huid, winKey]
      exact lt_trans (hbound u hu) (lt_add_one _)

/-- `closeWindow` keeps `nextZIndex` unchanged. -/
theorem closeWindow_nextZIndex (s : DState) (id : String) :
    (closeWindow s id).nextZIndex = s.nextZIndex := by
  cases hws : s.windows.filter (notId id) with
  | nil => simp [closeWindow, hws]
  | cons w rest =>
    by_cases hfid : s.focusedWindowId = some id <;> simp [closeWindow, hws, hfid]

/-- `closeWindow` preserves the key invariant (removal plus a focus flag
flip, neither of which touches keys). -/
theorem keysOK_closeWindow (s : DState) (id : String)
    (hk : KeysOK s.windows s.nextZIndex) :
    KeysOK (closeWindow s id).windows s.nextZIndex := by
  have hsub : KeysOK (s.windows.filter (notId id)) s.nextZIndex :=
    keysOK_sublist (List.filter_sublist s.windows) hk
  cases hws : s.windows.filter (notId id) with
  | nil =>
    have hclose : (closeWindow s id).windows = [] := by simp [closeWindow, hws]
    rw [hclose]
    exact ⟨List.Pairwise.nil, by simp⟩
  | cons w rest =>
    rw [hws] at hsub
    by_cases hfid : s.focusedWindowId = some id
    · have hclose : (closeWindow s id).windows =
          setFocusedOnFirst (reduceMaxZ w (w :: rest)) (w :: rest) := by
        simp [closeWindow, hws, hfid]
      rw [hclose]
      exact keysOK_of_keys_eq (setFocusedOnFirst_map _ _ winKey rfl) hsub
    · have hclose : (closeWindow s id).windows = w :: rest := by
        simp [closeWindow, hws, hfid]
      rw [hclose]
      exact hsub

/-- `minimizeWindow` keeps `nextZIndex` unchanged. -/
theorem minimizeWindow_nextZIndex (s : DState) (id : String) :
    (minimizeWindow s id).nextZIndex = s.nextZIndex := by
  cases hvs : (s.windows.map (fun w =>
      if w.id = id then { w with isMinimized := true, isFocused := false } else w)).filter
      (fun w => !w.isMinimized) with
  | nil => simp [minimizeWindow, hvs]
  | cons v vrest => simp [minimizeWindow, hvs]

/-- `minimizeWindow` preserves the key invariant (flag flips only). -/
theorem keysOK_minimizeWindow (s : DState) (id : String)
    (hk : KeysOK s.windows s.nextZIndex) :
    KeysOK (minimizeWindow s id).windows s.nextZIndex := by
  have hmap : KeysOK (s.windows.map (fun w =>
      if w.id = id then { w with isMinimized := true, isFocused := false } else w))
      s.nextZIndex :=
    keysOK_map_keep _ (fun w => by by_cases h : w.id = id <;> simp [winKey, h]) hk
  cases hvs : (s.windows.map (fun w =>
      if w.id = id then { w with isMinimized := true, isFocused := false } else w)).filter
      (fun w => !w.isMinimized) with
  | nil =>
    have hmin : (minimizeWindow s id).windows = s.windows.map (fun w =>
        if w.id = id then { w with isMinimized := true, isFocused := false } else w) := by
      simp [minimizeWindow, hvs]
    rw [hmin]
    exact hmap
  | cons v vrest =>
    have hmin : (minimizeWindow s id).windows =
        setFocusedOnFirst (reduceMaxZ v (v :: vrest)) (s.windows.map (fun w =>
          if w.id = id then { w with isMinimized := true, isFocused := false } else w)) := by
      simp [minimizeWindow, hvs]
    rw [hmin]
    exact keysOK_of_keys_eq (setFocusedOnFirst_map _ _ winKey rfl) hmap

/-- The key invariant holds in every reachable state. -/
theorem keysOK_reachable (s : DState) (h : Reachable s) :
    KeysOK s.windows s.nextZIndex := by
  induction h with
  | init desktopSize => refine ⟨?_, ?_⟩ <;> simp [initialState]
  | openW config generatedId hfresh _ ih =>
    exact keysOK_openWindow _ config generatedId hfresh ih
  | closeW id _ ih =>
    rw [closeWindow_nextZIndex]
    exact keysOK_closeWindow _ id ih
  | focusW id _ ih => exact keysOK_focusWindow _ id ih
  | minimizeW id _ ih =>
    rw [minimizeWindow_nextZIndex]
    exact keysOK_minimizeWindow _ id ih
  | restoreW id _ ih => exact keysOK_focusWindow _ id ih
  | maximizeW id _ ih =>
    exact keysOK_map_keep _ (fun w => by by_cases h : w.id = id <;> simp [winKey, h]) ih
  | centerW id _ ih =>
    exact keysOK_map_keep _ (fun w => by by_cases h : w.id = id <;> simp [winKey, h]) ih
  | movePos id position _ ih =>
    exact keysOK_map_keep _ (fun w => by by_cases h : w.id = id <;> simp [winKey, h]) ih
  | resizeW id size _ ih =>
    exact keysOK_map_keep _ (fun w => by by_cases h : w.id = id <;> simp [winKey, h]) ih

/-- Claim C2: in every reachable state no two windows share a `zIndex`; every
`openWindow` call increments `nextZIndex` by exactly 1 and the newly appended
window's `zIndex` is the pre-increment counter value; every `focusWindow`
call increments `nextZIndex` by exactly 1 and any window matching the focused
id carries the pre-increment counter value as its `zIndex`. -/
theorem zOrder_monotonic_unique (s : DState) (h : Reachable s) :
    s.windows.Pairwise (fun a b => a.zIndex ≠ b.zIndex) ∧
    (∀ config generatedId,
      (openWindow s config generatedId).nextZIndex = s.nextZIndex + 1 ∧
      (openWindow s config generatedId).windows.getLast? =
        some (mkOpenedWindow s config generatedId) ∧
      (mkOpenedWindow s config generatedId).zIndex = s.nextZIndex) ∧
    (∀ id, (focusWindow s id).nextZIndex = s.nextZIndex + 1 ∧
      ∀ w ∈ (focusWindow s id).windows, w.id = id → w.zIndex = s.nextZIndex) := by
  refine ⟨?_, ?_, ?_⟩
  · have hp := (keysOK_reachable s h).1
    exact (List.pairwise_map.mp hp).imp (fun hab => hab.1)
  · intro config generatedId
    refine ⟨rfl, ?_, rfl⟩
    show (s.windows.map (fun (w : WindowRecord) => { w with isFocused := false }) ++
      [mkOpenedWindow s config generatedId]).getLast? = _
    exact List.getLast?_concat _
  · intro id
    refine ⟨rfl, ?_⟩
    intro w hw hwid
    obtain ⟨u, hu, huw⟩ := List.mem_map.mp hw
    by_cases huid : u.id = id
    · rw [← huw, if_pos huid]
    · rw [← huw, if_neg huid] at hwid
      exact absurd hwid huid

/-- The state after opening one window from the initial state — reachable. -/
def sampleOpened : DState := openWindow (initialState ⟨1920, 1080⟩) emptyConfig "a"

/-- Witness for C2: instantiates `zOrder_monotonic_unique` on the reachable
state `sampleOpened`, checking the conjuncts there. -/
theorem zOrder_monotonic_unique_witness :
    Reachable sampleOpened ∧
    sampleOpened.windows.Pairwise (fun a b => a.zIndex ≠ b.zIndex) ∧
    (∀ config generatedId,
      (openWindow sampleOpened config generatedId).nextZIndex =
        sampleOpened.nextZIndex + 1 ∧
      (openWindow sampleOpened config generatedId).windows.getLast? =
        some (mkOpenedWindow sampleOpened config generatedId) ∧
      (mkOpenedWindow sampleOpened config generatedId).zIndex =
        sampleOpened.nextZIndex) ∧
    (∀ id, (focusWindow sampleOpened id).nextZIndex = sampleOpened.nextZIndex + 1 ∧
      ∀ w ∈ (focusWindow sampleOpened id).windows, w.id = id →
        w.zIndex = sampleOpened.nextZIndex) :=
  have hr : Reachable sampleOpened :=
    Reachable.openW emptyConfig "a" (by simp [initialState]) (Reachable.init _)
  ⟨hr, (zOrder_monotonic_unique sampleOpened hr).1,
    (zOrder_monotonic_unique sampleOpened hr).2.1,
    (zOrder_monotonic_unique sampleOpened hr).2.2⟩

/-! ## Persistence adapter (`saveToLocalStorage` / `loadFromLocalStorage`)

The adapter works at the level of JavaScript/JSON values: `JValue` models a
parsed JSON value (objects as association lists with unique keys, the shape
`JSON.parse` produces).  The localStorage slot under `STORAGE_KEY_APP_STATE`
is a `StoredEntry`: absent, a string `JSON.parse` rejects, or the value it
parses to (`JSON.stringify`/`JSON.parse` round-trip on JSON values is the
identity).  The persisted view of the in-memory state is `PMemState`:
`windows` is the raw JS value sitting in `state.windows` (`none` models
`undefined`, which `JSON.stringify` omits); `iconPositions` is the typed
appId ↦ `{x, y}` map of the data model. -/

/-- A parsed JSON value. -/
inductive JValue where
  | jnull
  | jbool (b : Bool)
  | jnum (n : Int)
  | jstr (s : String)
  | jarr (elems : List JValue)
  | jobj (fields : List (String × JValue))

/-- The localStorage slot for the fixed key `STORAGE_KEY_APP_STATE`. -/
inductive StoredEntry where
  | absent
  | malformed
  | value (parsed : JValue)

/-- The persisted projection of the in-memory state. -/
structure PMemState where
  theme : String
  windows : Option JValue
  iconPositions : List (String × Pos)

/-- `Object.values(THEMES)` from the constants module. -/
def themeValues : List String := ["dark", "light", "macos", "glass", "custom"]

/-- Property access `parsed.k`: defined only on objects (arrays carry no
named data properties for the keys the loader reads). -/
def getField (j : JValue) (k : String) : Option JValue :=
  match j with
  | .jobj fields => fields.lookup k
  | _ => none

/-- The guard `!parsed || typeof parsed !== 'object'` (negated): `null` is
falsy and primitives have a non-object `typeof`, so exactly objects and
arrays pass. -/
def objectLike : JValue → Bool
  | .jobj _ => true
  | .jarr _ => true
  | _ => false

/-- The test `parsed.theme && Object.values(THEMES).includes(parsed.theme)`:
it succeeds exactly on a string field equal to one of the theme values (all
of which are truthy strings; `includes` uses strict equality). -/
def themeOf : Option JValue → Option String
  | some (.jstr t) => if t ∈ themeValues then some t else none
  | _ => none

/-- `Array.from(iconPositions.entries())` followed by `JSON.stringify`: each
map entry becomes a `[key, {x, y}]` pair. -/
def encodeIconEntries (m : List (String × Pos)) : JValue :=
  .jarr (m.map (fun e =>
    .jarr [.jstr e.1, .jobj [("x", .jnum e.2.x), ("y", .jnum e.2.y)]]))

/-- Reading one `{x, y}` object back. -/
def decodePos : JValue → Option Pos
  | .jobj fields =>
      match fields.lookup "x", fields.lookup "y" with
      | some (.jnum x), some (.jnum y) => some ⟨x, y⟩
      | _, _ => none
  | _ => none

/-- Reading one `[key, value]` entry of `new Map(parsed.iconPositions)` back
into the typed map.  A non-entry-like element makes `new Map` throw a
`TypeError`; an entry not of the `[string, {x,y}]` shape is not representable
in the typed appId ↦ `{x, y}` map and is conservatively routed to the same
exception path. -/
def decodeIconEntry : JValue → Option (String × Pos)
  | .jarr (.jstr k :: v :: _) => (decodePos v).map (fun p => (k, p))
  | _ => none

/-- Reading the whole entry list; `none` models the thrown `TypeError`. -/
def decodeIconEntries : List JValue → Option (List (String × Pos))
  | [] => some []
  | e :: rest =>
      match decodeIconEntry e, decodeIconEntries rest with
      | some p, some ps => some (p :: ps)
      | _, _ => none

/-- `AppState.saveToLocalStorage`: stores the `{theme, windows,
iconPositions}` projection under the fixed key (an `undefined` `windows`
field is omitted by `JSON.stringify`). -/
def saveToLocalStorage (st : PMemState) : StoredEntry :=
  .value (.jobj
    ([("theme", .jstr st.theme)] ++
     (match st.windows with
      | some w => [("windows", w)]
      | none => []) ++
     [("iconPositions", encodeIconEntries st.iconPositions)]))

/-- `AppState.loadFromLocalStorage`, as a function of the stored entry and
the in-memory state, returning the updated state and the updated entry.
Statement order of the source: absent key → return; parse failure → `catch`
deletes the entry; non-object parse result → warn and return with the entry
*retained*; otherwise theme is applied if valid, then the icon map is rebuilt
when the field is an array (a `TypeError` there reaches the `catch`, deleting
the entry after the theme was already applied), and finally
`this.state.windows = parsed.windows` is assigned unconditionally. -/
def loadFromLocalStorage (entry : StoredEntry) (st : PMemState) :
    PMemState × StoredEntry :=
  match entry with
  | .absent => (st, .absent)
  | .malformed => (st, .absent)
  | .value parsed =>
    if objectLike parsed then
      let st1 :=
        match themeOf (getField parsed "theme") with
        | some t => { st with theme := t }
        | none => st
      match getField parsed "iconPositions" with
      | some (.jarr elems) =>
          match decodeIconEntries elems with
          | some m =>
              ({ st1 with iconPositions := m, windows := getField parsed "windows" },
                .value parsed)
          | none => (st1, .absent)
      | _ => ({ st1 with windows := getField parsed "windows" }, .value parsed)
    else
      (st, .value parsed)

/-- The in-memory defaults of the persisted view: dark theme, an empty
window list, no icon positions. -/
def initialPState : PMemState :=
  { theme := "dark", windows := some (.jarr []), iconPositions := [] }

/-- Whether the `iconPositions` field would not make `new Map` throw: absent,
non-array (skipped), or an array of decodable entries. -/
def iconFieldOk (j : JValue) : Prop :=
  match getField j "iconPositions" with
  | some (.jarr elems) => (decodeIconEntries elems).isSome = true
  | some _ => True
  | none => True

/-! ## Claim C4: load validation -/

/-- Claim C4 counterexample: the stored payload `{"windows": 7}` parses to an
object whose `windows` field is not list-shaped.  The claim says such an
entry is deleted and the defaults kept for every field; instead
`loadFromLocalStorage` keeps the entry and assigns the invalid value over the
default empty `windows` list. -/
theorem load_invalid_windows_counterexample :
    (loadFromLocalStorage (.value (.jobj [("windows", .jnum 7)])) initialPState).2 =
      .value (.jobj [("windows", .jnum 7)]) ∧
    (loadFromLocalStorage (.value (.jobj [("windows", .jnum 7)])) initialPState).1.windows =
      some (.jnum 7) ∧
    initialPState.windows = some (.jarr []) ∧
    some (JValue.jnum 7) ≠ some (JValue.jarr []) :=
  ⟨rfl, rfl, rfl, fun h => JValue.noConfusion (Option.some.inj h)⟩

/-- Claim C4 (amended): the stored entry is deleted only when parsing throws
(or when icon-entry decoding throws mid-load); a payload that parses to a
non-object value is ignored with the entry *retained* and the state
untouched; for object-like payloads the fields are applied independently —
the theme only when valid, falling back to the in-memory value otherwise —
and the `windows` field is copied into the state unconditionally, without any
list-shape validation (even when absent or not list-shaped). -/
theorem load_validation_behavior (st : PMemState) (j : JValue) :
    (loadFromLocalStorage .malformed st = (st, .absent)) ∧
    (objectLike j = false → loadFromLocalStorage (.value j) st = (st, .value j)) ∧
    (objectLike j = true → iconFieldOk j →
      (loadFromLocalStorage (.value j) st).1.windows = getField j "windows" ∧
      (loadFromLocalStorage (.value j) st).2 = .value j ∧
      (∀ t, themeOf (getField j "theme") = some t →
        (loadFromLocalStorage (.value j) st).1.theme = t) ∧
      (themeOf (getField j "theme") = none →
        (loadFromLocalStorage (.value j) st).1.theme = st.theme)) := by
  refine ⟨rfl, ?_, ?_⟩
  · intro hobj
    simp [loadFromLocalStorage, hobj]
  · intro hobj hicon
    have hload : ∀ st1 : PMemState,
        (match themeOf (getField j "theme") with
          | some t => { st with theme := t }
          | none => st) = st1 →
        (loadFromLocalStorage (.value j) st).1.windows = getField j "windows" ∧
        (loadFromLocalStorage (.value j) st).2 = .value j ∧
        (loadFromLocalStorage (.value j) st).1.theme = st1.theme := by
      intro st1 hst1
      rcases hfield : getField j "iconPositions" with _ | jv
      · simp only [loadFromLocalStorage, hobj, if_true, hst1, hfield]
        refine ⟨?_, ?_, ?_⟩ <;> trivial
      · rcases jv with _ | b | n | s' | elems | fields
        case jarr =>
          have hdec : ∃ m, decodeIconEntries elems = some m := by
            have hic := hicon
            rw [iconFieldOk, hfield] at hic
            exact Option.isSome_iff_exists.mp hic
          obtain ⟨m, hm⟩ := hdec
          simp only [loadFromLocalStorage, hobj, if_true, hst1, hfield, hm]
          refine ⟨?_, ?_, ?_⟩ <;> trivial
        all_goals
          simp only [loadFromLocalStorage, hobj, if_true, hst1, hfield]
          refine ⟨?_, ?_, ?_⟩ <;> trivial
    cases hth : themeOf (getField j "theme") with
    | none =>
      obtain ⟨h1, h2, h3⟩ := hload st (by rw [hth])
      exact ⟨h1, h2, fun t ht => absurd ht (by simp), fun _ => h3⟩
    | some t =>
      obtain ⟨h1, h2, h3⟩ := hload { st with theme := t } (by rw [hth])
      refine ⟨h1, h2, fun t' ht' => ?_, fun hn => absurd hn (by simp)⟩
      have hts : t = t' := Option.some.inj ht'
      rw [h3, ← hts]

/-- Witness for the amended C4: a malformed entry is deleted; the non-object
payload `3` is ignored with the entry kept; the object payload
`{"windows": 7}` has its `windows` field copied verbatim. -/
theorem load_validation_behavior_witness :
    (loadFromLocalStorage .malformed initialPState = (initialPState, .absent)) ∧
    (objectLike (.jnum 3) = false ∧
      loadFromLocalStorage (.value (.jnum 3)) initialPState =
        (initialPState, .value (.jnum 3))) ∧
    (objectLike (.jobj [("windows", .jnum 7)]) = true ∧
      iconFieldOk (.jobj [("windows", .jnum 7)]) ∧
      (loadFromLocalStorage (.value (.jobj [("windows", .jnum 7)])) initialPState).1.windows =
        getField (.jobj [("windows", .jnum 7)]) "windows") :=
  ⟨(load_validation_behavior initialPState (.jnum 3)).1,
   ⟨rfl, (load_validation_behavior initialPState (.jnum 3)).2.1 rfl⟩,
   ⟨rfl, trivial,
    ((load_validation_behavior initialPState
      (.jobj [("windows", .jnum 7)])).2.2 rfl trivial).1⟩⟩

/-! ## Claim C6: persistence round-trip -/

/-- Decoding the encoded icon map gives back exactly the original entries. -/
theorem decodeIconEntries_encode (m : List (String × Pos)) :
    decodeIconEntries (m.map (fun e =>
      .jarr [.jstr e.1, .jobj [("x", .jnum e.2.x), ("y", .jnum e.2.y)]])) = some m := by
  induction m with
  | nil => rfl
  | cons e rest ih =>
    have h1 : decodeIconEntry (.jarr [.jstr e.1,
        .jobj [("x", .jnum e.2.x), ("y", .jnum e.2.y)]]) = some e := rfl
    simp [decodeIconEntries, h1, ih]

/-- Claim C6: loading immediately after saving reproduces `theme`, `windows`
and `iconPositions` exactly, for every state whose theme is one of the known
theme values (and any in-memory state `st0` at load time). -/
theorem persistence_round_trip (st0 st : PMemState)
    (htheme : st.theme ∈ themeValues) :
    (loadFromLocalStorage (saveToLocalStorage st) st0).1.theme = st.theme ∧
    (loadFromLocalStorage (saveToLocalStorage st) st0).1.windows = st.windows ∧
    (loadFromLocalStorage (saveToLocalStorage st) st0).1.iconPositions =
      st.iconPositions := by
  have hth : themeOf (some (.jstr st.theme)) = some st.theme := by
    simp [themeOf, htheme]
  cases hw : st.windows with
  | none =>
    have hdec := decodeIconEntries_encode st.iconPositions
    have hsave : saveToLocalStorage st = .value (.jobj
        [("theme", .jstr st.theme),
         ("iconPositions", .jarr (st.iconPositions.map (fun e =>
           .jarr [.jstr e.1, .jobj [("x", .jnum e.2.x), ("y", .jnum e.2.y)]])))]) := by
      simp only [saveToLocalStorage, hw]
      rfl
    have h1 : getField (.jobj
        [("theme", .jstr st.theme),
         ("iconPositions", .jarr (st.iconPositions.map (fun e =>
           .jarr [.jstr e.1, .jobj [("x", .jnum e.2.x), ("y", .jnum e.2.y)]])))]) "theme" =
        some (.jstr st.theme) := rfl
    have h2 : getField (.jobj
        [("theme", .jstr st.theme),
         ("iconPositions", .jarr (st.iconPositions.map (fun e =>
           .jarr [.jstr e.1, .jobj [("x", .jnum e.2.x), ("y", .jnum e.2.y)]])))]) "iconPositions" =
        some (.jarr (st.iconPositions.map (fun e =>
           .jarr [.jstr e.1, .jobj [("x", .jnum e.2.x), ("y", .jnum e.2.y)]]))) := rfl
    have h3 : getField (.jobj
        [("theme", .jstr st.theme),
         ("iconPositions", .jarr (st.iconPositions.map (fun e =>
           .jarr [.jstr e.1, .jobj [("x", .jnum e.2.x), ("y", .jnum e.2.y)]])))]) "windows" =
        none := rfl
    rw [hsave]
    simp [loadFromLocalStorage, objectLike, h1, h2, h3, hth, hdec, hw]
  | some w =>
    have hdec := decodeIconEntries_encode st.iconPositions
    have hsave : saveToLocalStorage st = .value (.jobj
        [("theme", .jstr st.theme), ("windows", w),
         ("iconPositions", .jarr (st.iconPositions.map (fun e =>
           .jarr [.jstr e.1, .jobj [("x", .jnum e.2.x), ("y", .jnum e.2.y)]])))]) := by
      simp only [saveToLocalStorage, hw]
      rfl
    have h1 : getField (.jobj
        [("theme", .jstr st.theme), ("windows", w),
         ("iconPositions", .jarr (st.iconPositions.map (fun e =>
           .jarr [.jstr e.1, .jobj [("x", .jnum e.2.x), ("y", .jnum e.2.y)]])))]) "theme" =
        some (.jstr st.theme) := rfl
    have h2 : getField (.jobj
        [("theme", .jstr st.theme), ("windows", w),
         ("iconPositions", .jarr (st.iconPositions.map (fun e =>
           .jarr [.jstr e.1, .jobj [("x", .jnum e.2.x), ("y", .jnum e.2.y)]])))]) "iconPositions" =
        some (.jarr (st.iconPositions.map (fun e =>
           .jarr [.jstr e.1, .jobj [("x", .jnum e.2.x), ("y", .jnum e.2.y)]]))) := rfl
    have h3 : getField (.jobj
        [("theme", .jstr st.theme), ("windows", w),
         ("iconPositions", .jarr (st.iconPositions.map (fun e =>
           .jarr [.jstr e.1, .jobj [("x", .jnum e.2.x), ("y", .jnum e.2.y)]])))]) "windows" =
        some w := rfl
    rw [hsave]
    simp [loadFromLocalStorage, objectLike, h1, h2, h3, hth, hdec, hw]

/-- A concrete persisted view: macos theme, one (JSON-encoded) window, two
icon positions. -/
def samplePState : PMemState :=
  { theme := "macos"
  , windows := some (.jarr [.jobj [("id", .jstr "a")]])
  , iconPositions := [("about", ⟨20, 20⟩), ("terminal", ⟨120, 20⟩)] }

/-- Witness for C6: round-trips a concrete state (macos theme, one window
record in the `windows` JSON value, two icon positions). -/
theorem persistence_round_trip_witness :
    ("macos" : String) ∈ themeValues ∧
    (loadFromLocalStorage (saveToLocalStorage samplePState) initialPState).1.theme =
      samplePState.theme ∧
    (loadFromLocalStorage (saveToLocalStorage samplePState) initialPState).1.windows =
      samplePState.windows ∧
    (loadFromLocalStorage (saveToLocalStorage samplePState) initialPState).1.iconPositions =
      samplePState.iconPositions :=
  ⟨by decide,
   (persistence_round_trip initialPState samplePState (by decide)).1,
   (persistence_round_trip initialPState samplePState (by decide)).2.1,
   (persistence_round_trip initialPState samplePState (by decide)).2.2⟩

end Portfolio
